import Mathlib

/-!
Verification of the Incap_MV screening core: a shallow embedding of the
rules engine (src/rules/engine.py), the spatial join and distance helpers
(src/ingestion/spatial.py) and the worst-of combination (app.py), with
theorems settling the specification claims about them.
-/

namespace IncapMV

/-- Scalar values as they appear in feature rows and rule-pack parameters
(Python scalars: None, str, int-like numbers, bool). Numbers are modelled
by integers; no claim depends on fractional values. -/
inductive Value where
  | vnone : Value
  | vstr : String → Value
  | vint : Int → Value
  | vbool : Bool → Value
deriving DecidableEq, Repr

/-- Python truthiness of a value, as used by `bool(...)`, `and`, `or`, `not`. -/
def Value.truthy : Value → Bool
  | .vnone => false
  | .vstr s => s != ""
  | .vint n => n != 0
  | .vbool b => b

/-- Python `==` on scalar values: None equals None, like types compare by
value, bool compares with numbers numerically, everything else is unequal. -/
def valueEq : Value → Value → Bool
  | .vnone, .vnone => true
  | .vstr s, .vstr t => s == t
  | .vint m, .vint n => m == n
  | .vbool a, .vbool b => a == b
  | .vbool a, .vint n => (if a then (1 : Int) else 0) == n
  | .vint n, .vbool a => n == (if a then (1 : Int) else 0)
  | _, _ => false

/-- Numeric view of a value (Python treats bool as an int for ordering). -/
def numOf : Value → Option Int
  | .vint n => some n
  | .vbool b => some (if b then 1 else 0)
  | _ => none

/-- Comparison operators of the condition DSL. -/
inductive CmpOp where
  | ceq | cne | clt | cle | cgt | cge
deriving DecidableEq, Repr

def ordHolds (op : CmpOp) (m n : Int) : Bool :=
  match op with
  | .ceq => m == n
  | .cne => m != n
  | .clt => decide (m < n)
  | .cle => decide (m ≤ n)
  | .cgt => decide (n < m)
  | .cge => decide (n ≤ m)

def ordHoldsStr (op : CmpOp) (s t : String) : Bool :=
  match op with
  | .ceq => s == t
  | .cne => s != t
  | .clt => decide (s < t)
  | .cle => decide (s < t) || s == t
  | .cgt => decide (t < s)
  | .cge => decide (t < s) || s == t

/-- Python comparison on two scalar values; ordering a value against an
incomparable type raises TypeError. -/
def valueCmp (op : CmpOp) (a b : Value) : Except String Bool :=
  match op with
  | .ceq => Except.ok (valueEq a b)
  | .cne => Except.ok (!valueEq a b)
  | _ =>
    match numOf a, numOf b with
    | some m, some n => Except.ok (ordHolds op m n)
    | _, _ =>
      match a, b with
      | .vstr s, .vstr t => Except.ok (ordHoldsStr op s t)
      | _, _ => Except.error "TypeError: unorderable types"

/-- Abstract syntax of the condition expressions accepted by the engine
(the compiled Python expression of `RulesEngine._eval_condition`):
literals, identifiers, comparisons, membership, and/or/not. -/
inductive Expr where
  | lit : Value → Expr
  | ident : String → Expr
  | cmp : CmpOp → Expr → Expr → Expr
  | mem : Expr → Expr → Expr
  | conj : Expr → Expr → Expr
  | disj : Expr → Expr → Expr
  | neg : Expr → Expr
deriving DecidableEq, Repr

/-- The identifiers occurring in an expression: the analogue of
`code.co_names` for a compiled eval-mode expression. -/
def Expr.identifiers : Expr → List String
  | .lit _ => []
  | .ident n => [n]
  | .cmp _ a b => a.identifiers ++ b.identifiers
  | .mem a b => a.identifiers ++ b.identifiers
  | .conj a b => a.identifiers ++ b.identifiers
  | .disj a b => a.identifiers ++ b.identifiers
  | .neg a => a.identifiers

/-- A feature row or parameter mapping: an association list with unique
keys (a Python dict), looked up front to back. -/
abbrev Row : Type := List (String × Value)

def Row.keys (r : Row) : List String := r.map (fun kv => kv.1)

def Row.lookupKey (r : Row) (n : String) : Option Value :=
  List.lookup n r

/-- The evaluation environment of `_eval_condition`:
it starts from the binding None, then all row entries, then all
parameters; later updates shadow earlier ones, so parameters win. -/
def envLookup (row params : Row) (n : String) : Option Value :=
  match params.lookupKey n with
  | some v => some v
  | none =>
    match row.lookupKey n with
    | some v => some v
    | none => if n = "None" then some Value.vnone else none

/-- A name is allowed exactly when it is a key of the environment
(`allowed_names = set(env.keys())`). -/
def allowedName (row params : Row) (n : String) : Bool :=
  n == "None" || (row.lookupKey n).isSome || (params.lookupKey n).isSome

/-- Evaluation of an expression against the environment, with Python
semantics: `and`/`or` return operand values, `not` returns a bool,
a name missing from the environment raises NameError. -/
def evalExpr (row params : Row) : Expr → Except String Value
  | .lit v => Except.ok v
  | .ident n =>
    match envLookup row params n with
    | some v => Except.ok v
    | none => Except.error ("NameError: name " ++ n ++ " is not defined")
  | .cmp op a b => do
    let x ← evalExpr row params a
    let y ← evalExpr row params b
    (valueCmp op x y).map Value.vbool
  | .mem a b => do
    let x ← evalExpr row params a
    let y ← evalExpr row params b
    match x, y with
    | Value.vstr s, Value.vstr t => Except.ok (Value.vbool (decide (s.data <:+: t.data)))
    | _, _ => Except.error "TypeError: argument not iterable"
  | .conj a b => do
    let x ← evalExpr row params a
    if x.truthy then evalExpr row params b else Except.ok x
  | .disj a b => do
    let x ← evalExpr row params a
    if x.truthy then Except.ok x else evalExpr row params b
  | .neg a => (evalExpr row params a).map (fun v => Value.vbool (!v.truthy))

/-- `RulesEngine._eval_condition`: reject any identifier that is not a key
of the environment (the name "in" is exempted by the source), then
evaluate and cast to bool. The name check runs before any evaluation, so
an illegal name is always an error even under short-circuiting. -/
def evalCondition (expr : Expr) (row params : Row) : Except String Bool :=
  match expr.identifiers.find? (fun n => !(allowedName row params n || n == "in")) with
  | some n => Except.error ("Illegal name in expression: " ++ n)
  | none => (evalExpr row params expr).map Value.truthy

/-- A rule of a dimension: either a conditional rule (`when`/`then`, the
raw condition text kept for the audit trail alongside its parse) or a
default rule. -/
inductive Rule where
  | cond (whenText : String) (whenExpr : Expr) (thenLabel : String)
  | dflt (label : String)
deriving DecidableEq, Repr

/-- `assigned = assigned or label` with Python truthiness: an empty-string
assignment counts as unset. -/
def pyOr (assigned : Option String) (label : String) : Option String :=
  match assigned with
  | none => some label
  | some s => if s = "" then some label else some s

/-- The inner rule loop of `RulesEngine.evaluate` for one row and one
dimension: defaults fold into `assigned` and continue; the first
conditional rule whose condition is true assigns its label, emits the
audit entry and breaks; a condition error aborts. Returns the final
`assigned` with the audit entries appended for this row. -/
def evalRules (dimension : String) (row params : Row) :
    List Rule → Option String → Except String (Option String × List String)
  | [], assigned => Except.ok (assigned, [])
  | Rule.dflt label :: rest, assigned =>
    evalRules dimension row params rest (pyOr assigned label)
  | Rule.cond whenText whenExpr thenLabel :: rest, assigned =>
    match evalCondition whenExpr row params with
    | Except.error msg => Except.error msg
    | Except.ok true =>
      Except.ok (some thenLabel, [dimension ++ ":" ++ whenText ++ "=>" ++ thenLabel])
    | Except.ok false => evalRules dimension row params rest assigned

/-- One row of one dimension, started with `assigned = None`. -/
def evalRowDim (dimension : String) (rules : List Rule) (params : Row) (row : Row) :
    Except String (Option String × List String) :=
  evalRules dimension row params rules none

/-- A loaded rule pack (`RulePack` dataclass): logic is an ordered mapping
from dimension name to its ordered rule list. -/
structure RulePack where
  version : Int
  name : String
  description : String
  parameters : Row
  logic : List (String × List Rule)
deriving DecidableEq, Repr

/-- Dict/column update: replace the value of an existing key in place or
append a new key at the end. -/
def setKey : Row → String → Value → Row
  | [], k, v => [(k, v)]
  | (k0, v0) :: rest, k, v =>
    if k0 = k then (k, v) :: rest else (k0, v0) :: setKey rest k v

/-- The category value stored in the result column. -/
def catValue : Option String → Value
  | none => Value.vnone
  | some s => Value.vstr s

def resultCol (dimension : String) : String := dimension ++ "_category"

/-- One dimension pass over all rows: each row first receives the result
column set to None (the frame-wide `out[result_col] = None`), its rules
are evaluated, and the result column is set to the assigned category.
Returns per row the enriched row, its category and its audit entries. -/
def dimPass (dimension : String) (rules : List Rule) (params : Row) :
    List Row → Except String (List (Row × Option String × List String))
  | [] => Except.ok []
  | row :: rest => do
    let row0 := setKey row (resultCol dimension) Value.vnone
    let r ← evalRowDim dimension rules params row0
    let tail ← dimPass dimension rules params rest
    Except.ok ((setKey row0 (resultCol dimension) (catValue r.1), r.1, r.2) :: tail)

/-- The outer dimension loop of `RulesEngine.evaluate`: dimensions in
declared order, threading the enriched rows (later dimensions see earlier
dimensions' category columns) and appending audit entries per row. -/
def evalLogic (params : Row) :
    List (String × List Rule) → List Row → List (List String) →
    Except String (List Row × List (String × List (Option String)) × List (List String))
  | [], rows, audit => Except.ok (rows, [], audit)
  | (dimension, rules) :: dims, rows, audit => do
    let results ← dimPass dimension rules params rows
    let audit1 := List.zipWith (fun a e => a ++ e) audit (results.map (fun t => t.2.2))
    let rest ← evalLogic params dims (results.map (fun t => t.1)) audit1
    Except.ok (rest.1, (dimension, results.map (fun t => t.2.1)) :: rest.2.1, rest.2.2)

/-- The output of `RulesEngine.evaluate`: enriched rows, the category
column of every dimension, the rule-pack stamp columns and the audit. -/
structure EvalOutput where
  rows : List Row
  categories : List (String × List (Option String))
  rulepackVersion : Int
  rulepackName : String
  ruleAudit : List (List String)
deriving DecidableEq, Repr

/-- `RulesEngine.evaluate` over a list of feature rows. -/
def evaluate (gdf : List Row) (pack : RulePack) : Except String EvalOutput := do
  let r ← evalLogic pack.parameters pack.logic gdf (gdf.map (fun _ => []))
  Except.ok ⟨r.1, r.2.1, pack.version, pack.name, r.2.2⟩

/-! ### Spatial helpers (src/ingestion/spatial.py) -/

/-- `SpatialJoinConfig` dataclass. Geometry-free fields only; the buffer
distance and threshold are rationals standing for the Python floats. -/
structure SpatialJoinConfig where
  join_how : String := "left"
  predicate_intersect : String := "intersects"
  buffer_meters : Option ℚ := none
  distance_water_threshold_m : ℚ := 1000
deriving DecidableEq, Repr

/-- `gpd.sjoin(left, right, how="left", predicate=...)` on already
reprojected (and, for points, already buffered) geometries, with the
predicate abstracted as a boolean test: every input row is kept in input
order; a row with matches yields one output row per matching right row in
right-index order; a row without matches yields a single row with an
absent (null) right side. -/
def sjoinLeft {α β : Type} (pred : α → β → Bool) (left : List α) (right : List β) :
    List (α × Option β) :=
  left.flatMap (fun a =>
    match right.filter (fun b => pred a b) with
    | [] => [(a, none)]
    | ms => ms.map (fun b => (a, some b)))

/-- `gpd.sjoin(..., how="inner", ...)`: only matching pairs are kept. -/
def sjoinInner {α β : Type} (pred : α → β → Bool) (left : List α) (right : List β) :
    List (α × Option β) :=
  left.flatMap (fun a => (right.filter (fun b => pred a b)).map (fun b => (a, some b)))

/-- `intersect_with_natura`: a spatial join of the portfolio against the
reference polygons, in left or inner mode per the config. The predicate
parameter stands for the configured spatial test applied to the metric
reprojection (and optional buffering) of each pair of geometries; the CRS
bookkeeping itself is modelled separately below. -/
def intersect_with_natura {α β : Type} (pred : α → β → Bool)
    (assets : List α) (natura : List β) (cfg : SpatialJoinConfig) :
    List (α × Option β) :=
  if cfg.join_how = "left" then sjoinLeft pred assets natura
  else sjoinInner pred assets natura

/-- A point in the metric CRS; coordinates are integers, which suffices
for every claim about the distance computation. -/
structure Pt where
  x : Int
  y : Int
deriving DecidableEq, Repr

/-- Squared Euclidean distance. Distances are modelled squared to stay in
the integers; squaring is strictly monotone on nonnegative reals, so
minima, argminima and ties are exactly those of the true distance. -/
def dist2 (p q : Pt) : Int := (p.x - q.x) ^ 2 + (p.y - q.y) ^ 2

/-- The spatial-index nearest query `w_sindex.nearest(geom.bounds, 1)`
followed by taking the first hit: for point reference geometries the
bounding box of each entry is the point itself, so the R-tree returns an
entry at minimum Euclidean distance, the first inserted one on ties.
Returns the position of that entry together with its distance; `none` on
an empty reference layer (where the source raises an IndexError). -/
def nearestAux (q : Pt) : List Pt → Option (Nat × Int)
  | [] => none
  | p :: rest =>
    match nearestAux q rest with
    | none => some (0, dist2 q p)
    | some (i, d) => if dist2 q p ≤ d then some (0, dist2 q p) else some (i + 1, d)

/-- One loop iteration of `distance_to_nearest_water`: query the index
for the nearest water feature to `g`, then recompute the distance to that
candidate with `nearest_points` and record the candidate's index label. -/
def nearestRecord (w : List Pt) (g : Pt) : Pt × Option (Int × Nat) :=
  match nearestAux g w with
  | none => (g, none)
  | some (i, _) => (g, some (dist2 g (w.getD i ⟨0, 0⟩), i))

/-- `distance_to_nearest_water`: the per-point nearest query over the
whole portfolio. -/
def distance_to_nearest_water (assets w : List Pt) : List (Pt × Option (Int × Nat)) :=
  assets.map (nearestRecord w)

/-- Modelled from the spec: the exhaustive pairwise-minimum computation
that the indexed nearest query is claimed to refine — compute every
pairwise distance, take the minimum, and return it with the first
position attaining it. -/
def listMin : List Int → Option Int
  | [] => none
  | d :: rest =>
    some (match listMin rest with
          | none => d
          | some m => min d m)

/-- Modelled from the spec: exhaustive nearest reference feature, ties to
the first feature encountered. -/
def exhaustiveNearest (q : Pt) (w : List Pt) : Option (Int × Nat) :=
  match listMin (w.map (fun p => dist2 q p)) with
  | none => none
  | some m => some (m, (w.map (fun p => dist2 q p)).findIdx (fun d => d == m))

/-- `flag_within_water_threshold`: the boolean column
`dist_water_m <= threshold_m` over the distance column. -/
def flag_within_water_threshold (dists : List ℚ) (threshold_m : ℚ) : List Bool :=
  dists.map (fun d => decide (d ≤ threshold_m))

/-! ### CRS bookkeeping of the spatial operations -/

/-- A GeoDataFrame reduced to its CRS tag. -/
structure GDF where
  crs : Option String
deriving DecidableEq, Repr

def WGS84 : String := "EPSG:4326"

/-- `set_crs`: tag an untagged frame (only called when the CRS is None). -/
def set_crs (_g : GDF) (c : String) : GDF := ⟨some c⟩

/-- `to_crs`: reproject, leaving the frame tagged with the target CRS. -/
def to_crs (_g : GDF) (c : String) : GDF := ⟨some c⟩

/-- `_ensure_crs_3857`: default an undefined CRS to WGS84, then reproject
to the metric CRS EPSG:3857. -/
def ensure_crs_3857 (g : GDF) : GDF :=
  to_crs (if g.crs = none then set_crs g WGS84 else g) "EPSG:3857"

/-- Python truthiness of `cfg.buffer_meters` (`if cfg.buffer_meters:`):
None and 0.0 are both falsy. -/
def bufferTruthy (b : Option ℚ) : Bool :=
  match b with
  | none => false
  | some x => x != 0

/-- CRS trace of `intersect_with_natura`: both layers are forced to the
metric CRS, the optional buffer and the join run there, and the joined
frame is reprojected to WGS84. The second component lists the CRS of each
frame at the moment of each geometry computation (buffer, then the two
sjoin operands). -/
def intersect_with_natura_crs (assets natura : GDF) (cfg : SpatialJoinConfig) :
    GDF × List (Option String) :=
  (to_crs (ensure_crs_3857 assets) WGS84,
    (if bufferTruthy cfg.buffer_meters then [(ensure_crs_3857 assets).crs] else []) ++
      [(ensure_crs_3857 assets).crs, (ensure_crs_3857 natura).crs])

/-- CRS trace of `overlay_corine`. -/
def overlay_corine_crs (assets corine : GDF) : GDF × List (Option String) :=
  (to_crs (ensure_crs_3857 assets) WGS84,
    [(ensure_crs_3857 assets).crs, (ensure_crs_3857 corine).crs])

/-- CRS trace of `distance_to_nearest_water`. -/
def distance_to_nearest_water_crs (assets water : GDF) : GDF × List (Option String) :=
  (to_crs (ensure_crs_3857 assets) WGS84,
    [(ensure_crs_3857 assets).crs, (ensure_crs_3857 water).crs])

/-! ### Worst-of combination (app.py, page 2 screening) -/

/-- The severity order dict of app.py — Low 0, Medium 1, High 2,
None -1 — read with `order.get(value, -1)`: any value outside the dict
also reads as -1. -/
def orderOf (v : Value) : Int :=
  match v with
  | Value.vstr s => if s = "Low" then 0 else if s = "Medium" then 1 else if s = "High" then 2 else -1
  | _ => -1

/-- `worst(a, b)`: `a if order.get(a, -1) >= order.get(b, -1) else b`. -/
def worst (a b : Value) : Value :=
  if orderOf b ≤ orderOf a then a else b

/-- `r.get(k)` on a result row: the stored value, None when absent. -/
def rowGet (r : Row) (k : String) : Value :=
  (r.lookupKey k).getD Value.vnone

/-- `overall_risk` of a result row: the worst of exactly the
`biodiversity_category` and `water_category` columns. -/
def overallRisk (r : Row) : Value :=
  worst (rowGet r "biodiversity_category") (rowGet r "water_category")

/-- Modelled from the spec: the severity of a category in the fixed order
Unassigned < Low < Medium < High. -/
def specOrder (c : Option String) : Int :=
  match c with
  | none => 0
  | some s => if s = "Low" then 1 else if s = "Medium" then 2 else if s = "High" then 3 else 0

/-- Modelled from the spec: the overall category as the maximum, by the
fixed ordinal order, across all dimension categories of a feature. -/
def specWorstOf (cats : List (Option String)) : Option String :=
  cats.foldl (fun acc c => if specOrder c ≤ specOrder acc then acc else c) none

/-! ### Derived definitions used by the theorems -/

/-- Whether an engine call ended in an exception. -/
def erred {α : Type} : Except String α → Bool
  | Except.error _ => true
  | Except.ok _ => false

/-- The label of the first default rule of a list, scanning in order. -/
def firstDefault : List Rule → Option String
  | [] => none
  | Rule.dflt label :: _ => some label
  | Rule.cond _ _ _ :: rest => firstDefault rest

/-- The result label a rule carries. -/
def labelOf : Rule → String
  | Rule.cond _ _ l => l
  | Rule.dflt l => l

/-- A label of the schema alphabet Low | Medium | High. -/
def LMH (s : String) : Prop := s = "Low" ∨ s = "Medium" ∨ s = "High"

/-- A category value as produced by a pack with schema labels. -/
def opt4 (c : Option String) : Prop :=
  c = none ∨ c = some "Low" ∨ c = some "Medium" ∨ c = some "High"

/-! ### Concrete instances used by witnesses and counterexamples -/

/-- The condition text "True": no identifiers, evaluates to True. -/
def exprTrue : Expr := Expr.lit (Value.vbool true)

/-- The condition text "False". -/
def exprFalse : Expr := Expr.lit (Value.vbool false)

/-- A left-mode join configuration (the dataclass defaults). -/
def cfgLeft : SpatialJoinConfig := ⟨"left", "intersects", none, 1000⟩

/-- A predicate under which every point matches every polygon. -/
def predAll : Nat → Nat → Bool := fun _ _ => true

/-- A pack whose only dimension is neither biodiversity nor water. -/
def packSoil : RulePack := ⟨1, "p", "", [], [("soil", [Rule.dflt "High"])]⟩

/-- One feature with no attributes. -/
def rowsOne : List Row := [[]]

/-- The enriched row `evaluate rowsOne packSoil` produces. -/
def soilRow : Row := [("soil_category", Value.vstr "High")]

/-- A two-dimension pack (biodiversity, water) for the audit witness. -/
def packTwoDim : RulePack :=
  ⟨1, "demo", "",
    [],
    [("biodiversity", [Rule.cond "True" exprTrue "High", Rule.dflt "Low"]),
     ("water", [Rule.dflt "Low"])]⟩

/-- One feature row for the audit witness. -/
def rowsDemo : List Row := [[("CLC_CODE", Value.vstr "111")]]

/-- The output `evaluate rowsDemo packTwoDim` produces. -/
def outDemo : EvalOutput :=
  ⟨[[("CLC_CODE", Value.vstr "111"),
     ("biodiversity_category", Value.vstr "High"),
     ("water_category", Value.vstr "Low")]],
   [("biodiversity", [some "High"]), ("water", [some "Low"])],
   1, "demo",
   [["biodiversity:True=>High"]]⟩

/-! ### Lemmas about the rule loop -/

theorem evalRules_append_first_match (dimension : String) (row params : Row)
    (pre post : List Rule) (whenText : String) (whenExpr : Expr) (thenLabel : String)
    (hpre : ∀ t e l, Rule.cond t e l ∈ pre → evalCondition e row params = Except.ok false)
    (hmatch : evalCondition whenExpr row params = Except.ok true) :
    ∀ a0 : Option String,
      evalRules dimension row params (pre ++ Rule.cond whenText whenExpr thenLabel :: post) a0 =
        Except.ok (some thenLabel, [dimension ++ ":" ++ whenText ++ "=>" ++ thenLabel]) := by
  induction pre with
  | nil =>
    intro a0
    simp [evalRules, hmatch]
  | cons r rest ih =>
    intro a0
    cases r with
    | dflt label =>
      simp only [List.cons_append, evalRules]
      exact ih (fun t e l h => hpre t e l (List.mem_cons_of_mem _ h)) _
    | cond t e l =>
      have he : evalCondition e row params = Except.ok false :=
        hpre t e l (List.mem_cons_self _ _)
      simp only [List.cons_append, evalRules, he]
      exact ih (fun t e l h => hpre t e l (List.mem_cons_of_mem _ h)) _

theorem evalRules_no_match (dimension : String) (row params : Row) :
    ∀ (rules : List Rule),
      (∀ t e l, Rule.cond t e l ∈ rules → evalCondition e row params = Except.ok false) →
      (∀ l, Rule.dflt l ∈ rules → l ≠ "") →
      ∀ a0 : Option String, (∀ s, a0 = some s → s ≠ "") →
        evalRules dimension row params rules a0 = Except.ok (a0.or (firstDefault rules), []) := by
  intro rules
  induction rules with
  | nil =>
    intro _ _ a0 _
    simp [evalRules, firstDefault]
  | cons r rest ih =>
    intro hnomatch hlabels a0 ha0
    cases r with
    | dflt label =>
      have hlab : label ≠ "" := hlabels label (List.mem_cons_self _ _)
      simp only [evalRules]
      rw [ih (fun t e l h => hnomatch t e l (List.mem_cons_of_mem _ h))
            (fun l h => hlabels l (List.mem_cons_of_mem _ h)) (pyOr a0 label) ?hside]
      case hside =>
        intro s hs
        cases a0 with
        | none =>
          simp [pyOr] at hs
          simpa [← hs] using hlab
        | some s0 =>
          have hs0 : s0 ≠ "" := ha0 s0 rfl
          simp [pyOr, hs0] at hs
          simpa [← hs] using hs0
      cases a0 with
      | none => simp [pyOr, firstDefault]
      | some s0 =>
        have hs0 : s0 ≠ "" := ha0 s0 rfl
        simp [pyOr, hs0, firstDefault]
    | cond t e l =>
      have he : evalCondition e row params = Except.ok false :=
        hnomatch t e l (List.mem_cons_self _ _)
      simp only [evalRules, he, firstDefault]
      exact ih (fun t e l h => hnomatch t e l (List.mem_cons_of_mem _ h))
        (fun l h => hlabels l (List.mem_cons_of_mem _ h)) a0 ha0

/-- Claim C3: for every feature and dimension, rules are tried in declared
list order; the first conditional rule whose condition evaluates true
determines the dimension's category and emits its audit entry, and no
later rule in the list (arbitrary `post`) affects the result. -/
theorem first_conditional_match_wins (dimension : String) (row params : Row)
    (pre post : List Rule) (whenText : String) (whenExpr : Expr) (thenLabel : String)
    (hpre : ∀ t e l, Rule.cond t e l ∈ pre → evalCondition e row params = Except.ok false)
    (hmatch : evalCondition whenExpr row params = Except.ok true) :
    evalRowDim dimension (pre ++ Rule.cond whenText whenExpr thenLabel :: post) params row =
      Except.ok (some thenLabel, [dimension ++ ":" ++ whenText ++ "=>" ++ thenLabel]) :=
  evalRules_append_first_match dimension row params pre post whenText whenExpr thenLabel
    hpre hmatch none

/-- Witness for C3: on the rule list [A: True => Medium, B: True => High,
default => Low] the assigned label is Medium even though B also holds. -/
theorem first_conditional_match_wins_witness :
    evalRowDim "risk"
      [Rule.cond "True" exprTrue "Medium", Rule.cond "True" exprTrue "High", Rule.dflt "Low"]
      [] [] = Except.ok (some "Medium", ["risk:True=>Medium"]) :=
  first_conditional_match_wins "risk" [] [] []
    [Rule.cond "True" exprTrue "High", Rule.dflt "Low"] "True" exprTrue "Medium"
    (by intro t e l h; exact absurd h (List.not_mem_nil _))
    (by rfl)

/-- Claim C10: a default rule does not terminate iteration of the rule
list: when a default rule precedes a conditional rule whose condition
holds (and no earlier conditional matched), the dimension's category is
the conditional rule's label, replacing the default's label that was
already assigned. -/
theorem default_does_not_stop_iteration (dimension : String) (row params : Row)
    (pre post : List Rule) (dlabel whenText thenLabel : String) (whenExpr : Expr)
    (_hd : Rule.dflt dlabel ∈ pre)
    (hpre : ∀ t e l, Rule.cond t e l ∈ pre → evalCondition e row params = Except.ok false)
    (hmatch : evalCondition whenExpr row params = Except.ok true) :
    evalRowDim dimension (pre ++ Rule.cond whenText whenExpr thenLabel :: post) params row =
      Except.ok (some thenLabel, [dimension ++ ":" ++ whenText ++ "=>" ++ thenLabel]) :=
  evalRules_append_first_match dimension row params pre post whenText whenExpr thenLabel
    hpre hmatch none

/-- Witness for C10: on [default => Low, B: True => High] the assigned
label is High, the default's Low having been replaced. -/
theorem default_does_not_stop_iteration_witness :
    evalRowDim "risk" [Rule.dflt "Low", Rule.cond "True" exprTrue "High"] [] [] =
      Except.ok (some "High", ["risk:True=>High"]) :=
  default_does_not_stop_iteration "risk" [] [] [Rule.dflt "Low"] [] "Low" "True" "High" exprTrue
    (List.mem_cons_self _ _)
    (by intro t e l h; simp at h)
    (by rfl)

/-- Claim C5: when no conditional rule of the dimension's list matches
(and the pack's labels are drawn from the schema, hence non-empty), the
assigned category is the first default rule's label — a later default
never overrides it — and None (Unassigned) when no default exists; no
audit entry is produced. -/
theorem default_fallback_first_default (dimension : String) (rules : List Rule)
    (row params : Row)
    (hnomatch : ∀ t e l, Rule.cond t e l ∈ rules → evalCondition e row params = Except.ok false)
    (hlabels : ∀ l, Rule.dflt l ∈ rules → l ≠ "") :
    evalRowDim dimension rules params row = Except.ok (firstDefault rules, []) := by
  have h := evalRules_no_match dimension row params rules hnomatch hlabels none
    (fun s hs => by cases hs)
  simpa [evalRowDim, Option.or] using h

/-- Witness for C5: on [A: False => High, default => Low] the assigned
label is Low; on [A: False => High] alone it is None. -/
theorem default_fallback_first_default_witness :
    evalRowDim "risk" [Rule.cond "False" exprFalse "High", Rule.dflt "Low"] [] [] =
      Except.ok (some "Low", []) ∧
    evalRowDim "risk" [Rule.cond "False" exprFalse "High"] [] [] =
      Except.ok (none, []) := by
  constructor
  · exact default_fallback_first_default "risk"
      [Rule.cond "False" exprFalse "High", Rule.dflt "Low"] [] []
      (by
        intro t e l h
        simp [List.mem_cons] at h
        obtain ⟨-, he, -⟩ := h
        subst he
        rfl)
      (by
        intro l h
        simp [List.mem_cons] at h
        subst h
        decide)
  · exact default_fallback_first_default "risk"
      [Rule.cond "False" exprFalse "High"] [] []
      (by
        intro t e l h
        simp [List.mem_cons] at h
        obtain ⟨-, he, -⟩ := h
        subst he
        rfl)
      (by intro l h; simp at h)

theorem lookupKey_setKey (r : Row) (k m : String) (v : Value) :
    Row.lookupKey (setKey r k v) m = if m = k then some v else Row.lookupKey r m := by
  induction r with
  | nil =>
    by_cases h : m = k
    · subst h
      simp [setKey, Row.lookupKey, List.lookup]
    · have hbeq : (m == k) = false := beq_eq_false_iff_ne.mpr h
      simp [setKey, Row.lookupKey, List.lookup, hbeq, h]
  | cons kv rest ih =>
    obtain ⟨k0, v0⟩ := kv
    by_cases h0 : k0 = k
    · subst h0
      by_cases h : m = k0
      · subst h
        simp [setKey, Row.lookupKey, List.lookup]
      · have hbeq : (m == k0) = false := beq_eq_false_iff_ne.mpr h
        simp [setKey, Row.lookupKey, List.lookup, hbeq, h]
    · by_cases h : m = k0
      · have hbeq : (m == k0) = true := beq_iff_eq.mpr h
        have hmk : ¬ m = k := fun hc => h0 (h.symm.trans hc)
        simp [setKey, Row.lookupKey, List.lookup, h0, hbeq, hmk]
      · have hbeq : (m == k0) = false := beq_eq_false_iff_ne.mpr h
        simp only [setKey, if_neg h0]
        simp only [Row.lookupKey, List.lookup, hbeq] at ih ⊢
        exact ih

theorem evalCondition_illegal_name (expr : Expr) (row params : Row) (n : String)
    (hn : n ∈ expr.identifiers)
    (hbad : (allowedName row params n || n == "in") = false) :
    ∃ msg, evalCondition expr row params = Except.error msg := by
  have hs : (expr.identifiers.find? (fun m => !(allowedName row params m || m == "in"))).isSome := by
    rw [List.find?_isSome]
    exact ⟨n, hn, by simp [hbad]⟩
  obtain ⟨m, hm⟩ := Option.isSome_iff_exists.mp hs
  refine ⟨"Illegal name in expression: " ++ m, ?_⟩
  unfold evalCondition
  rw [hm]

/-- Claim C2: an identifier of a condition expression that is absent from
both the feature's attribute row and the pack's parameters makes the
condition evaluation raise an error (no value is substituted), and that
error aborts the whole rule-pack evaluation. -/
theorem unknown_identifier_rejected (expr : Expr) (row params : Row) (n : String)
    (hn : n ∈ expr.identifiers)
    (hrow : Row.lookupKey row n = none) (hparams : Row.lookupKey params n = none)
    (hnone : n ≠ "None") (hin : n ≠ "in") :
    erred (evalCondition expr row params) = true ∧
    ∀ (dimension whenText thenLabel : String) (rest : List Rule)
      (dims : List (String × List Rule)) (version : Int) (nm desc : String)
      (others : List Row),
      n ≠ resultCol dimension →
      erred (evaluate (row :: others)
        ⟨version, nm, desc, params,
          (dimension, Rule.cond whenText expr thenLabel :: rest) :: dims⟩) = true := by
  have hbad : (allowedName row params n || n == "in") = false := by
    simp [allowedName, hrow, hparams, hnone, hin]
  constructor
  · obtain ⟨msg, hmsg⟩ := evalCondition_illegal_name expr row params n hn hbad
    simp [hmsg, erred]
  · intro dimension whenText thenLabel rest dims version nm desc others hcol
    have hrow0 : Row.lookupKey (setKey row (resultCol dimension) Value.vnone) n = none := by
      rw [lookupKey_setKey]
      simp [hcol, hrow]
    have hbad0 : (allowedName (setKey row (resultCol dimension) Value.vnone) params n
        || n == "in") = false := by
      simp [allowedName, hrow0, hparams, hnone, hin]
    obtain ⟨msg, hmsg⟩ :=
      evalCondition_illegal_name expr (setKey row (resultCol dimension) Value.vnone) params n
        hn hbad0
    simp [evaluate, evalLogic, dimPass, evalRowDim, evalRules, hmsg, erred,
      Bind.bind, Except.bind]

/-- Witness for C2: the expression "foo" over a row carrying only
dist_water_m and empty parameters errors, and the pack evaluation using
it as a condition errors. -/
theorem unknown_identifier_rejected_witness :
    erred (evalCondition (Expr.ident "foo") [("dist_water_m", Value.vint 500)] []) = true ∧
    erred (evaluate [[("dist_water_m", Value.vint 500)]]
      ⟨1, "pack", "", [], [("water", [Rule.cond "foo" (Expr.ident "foo") "High"])]⟩) = true := by
  have h := unknown_identifier_rejected (Expr.ident "foo") [("dist_water_m", Value.vint 500)] []
    "foo" (by simp [Expr.identifiers]) (by decide) (by decide) (by decide) (by decide)
  exact ⟨h.1, h.2 "water" "foo" "High" [] [] 1 "pack" "" [] (by decide)⟩

theorem evalRules_char (dimension : String) (row params : Row) :
    ∀ (rules : List Rule) (a0 : Option String) (res : Option String × List String),
      evalRules dimension row params rules a0 = Except.ok res →
      (res.2 = [] ∧ ∀ t e l, Rule.cond t e l ∈ rules →
          evalCondition e row params = Except.ok false) ∨
      (∃ t e l, Rule.cond t e l ∈ rules ∧ evalCondition e row params = Except.ok true ∧
          res.1 = some l ∧ res.2 = [dimension ++ ":" ++ t ++ "=>" ++ l]) := by
  intro rules
  induction rules with
  | nil =>
    intro a0 res h
    left
    rw [evalRules] at h
    have hres := Except.ok.inj h
    constructor
    · rw [← hres]
    · intro t e l hm
      exact absurd hm (List.not_mem_nil _)
  | cons r rest ih =>
    intro a0 res h
    cases r with
    | dflt label =>
      rw [show evalRules dimension row params (Rule.dflt label :: rest) a0 =
            evalRules dimension row params rest (pyOr a0 label) from rfl] at h
      rcases ih (pyOr a0 label) res h with ⟨h2, hall⟩ | ⟨t, e, l, hm, he, h1, h2⟩
      · left
        refine ⟨h2, fun t e l hm => ?_⟩
        rcases List.mem_cons.mp hm with hc | hc
        · cases hc
        · exact hall t e l hc
      · right
        exact ⟨t, e, l, List.mem_cons_of_mem _ hm, he, h1, h2⟩
    | cond t e l =>
      cases hc : evalCondition e row params with
      | error msg =>
        simp only [evalRules, hc] at h
        exact Except.noConfusion h
      | ok b =>
        cases b with
        | true =>
          simp only [evalRules, hc] at h
          have hres := Except.ok.inj h
          right
          exact ⟨t, e, l, List.mem_cons_self _ _, hc, by rw [← hres], by rw [← hres]⟩
        | false =>
          simp only [evalRules, hc] at h
          rcases ih a0 res h with ⟨h2, hall⟩ | ⟨t1, e1, l1, hm, he, h1, h2⟩
          · left
            refine ⟨h2, fun t1 e1 l1 hm => ?_⟩
            rcases List.mem_cons.mp hm with hc1 | hc1
            · injection hc1 with ht he1 hl
              rw [he1]
              exact hc
            · exact hall t1 e1 l1 hc1
          · right
            exact ⟨t1, e1, l1, List.mem_cons_of_mem _ hm, he, h1, h2⟩

theorem dimPass_ok_facts (dimension : String) (rules : List Rule) (params : Row) :
    ∀ (rows : List Row) (results : List (Row × Option String × List String)),
      dimPass dimension rules params rows = Except.ok results →
      results.length = rows.length ∧ ∀ t ∈ results, t.2.2.length ≤ 1 := by
  intro rows
  induction rows with
  | nil =>
    intro results h
    rw [dimPass] at h
    have hres := Except.ok.inj h
    rw [← hres]
    exact ⟨rfl, fun t ht => absurd ht (List.not_mem_nil _)⟩
  | cons row rest ih =>
    intro results h
    rw [dimPass] at h
    cases hr : evalRowDim dimension rules params (setKey row (resultCol dimension) Value.vnone) with
    | error msg =>
      simp only [hr, Bind.bind, Except.bind] at h
      exact Except.noConfusion h
    | ok r =>
      simp only [hr, Bind.bind, Except.bind] at h
      cases ht : dimPass dimension rules params rest with
      | error msg =>
        simp only [ht] at h
        exact Except.noConfusion h
      | ok tail =>
        simp only [ht] at h
        have hres := Except.ok.inj h
        obtain ⟨hlen, hall⟩ := ih tail ht
        have hr2 : r.2.length ≤ 1 := by
          rcases evalRules_char dimension
              (setKey row (resultCol dimension) Value.vnone) params rules none r hr with
            ⟨h2, _⟩ | ⟨t1, e1, l1, _, _, _, h2⟩
          · simp [h2]
          · simp [h2]
        rw [← hres]
        constructor
        · simp [hlen]
        · intro t htm
          rcases List.mem_cons.mp htm with hc | hc
          · rw [hc]
            exact hr2
          · exact hall t hc

theorem evalLogic_audit_bound (params : Row) :
    ∀ (dims : List (String × List Rule)) (rows : List Row) (audit : List (List String))
      (out : List Row × List (String × List (Option String)) × List (List String)),
      audit.length = rows.length →
      evalLogic params dims rows audit = Except.ok out →
      out.2.2.length = audit.length ∧
      ∀ i (h3 : i < out.2.2.length) (ha : i < audit.length),
        (out.2.2.get ⟨i, h3⟩).length ≤ (audit.get ⟨i, ha⟩).length + dims.length := by
  intro dims
  induction dims with
  | nil =>
    intro rows audit out hlen h
    rw [evalLogic] at h
    have hres := Except.ok.inj h
    rw [← hres]
    exact ⟨rfl, fun i h3 ha => by simp⟩
  | cons dr dims ih =>
    obtain ⟨dimension, rules⟩ := dr
    intro rows audit out hlen h
    rw [evalLogic] at h
    cases hdp : dimPass dimension rules params rows with
    | error msg =>
      simp only [hdp, Bind.bind, Except.bind] at h
      exact Except.noConfusion h
    | ok results =>
      simp only [hdp, Bind.bind, Except.bind] at h
      cases hrec : evalLogic params dims (results.map fun t => t.1)
          (List.zipWith (fun a e => a ++ e) audit (results.map fun t => t.2.2)) with
      | error msg =>
        simp only [hrec] at h
        exact Except.noConfusion h
      | ok r2 =>
        simp only [hrec] at h
        have hres := Except.ok.inj h
        subst hres
        obtain ⟨hrl, hentry⟩ := dimPass_ok_facts dimension rules params rows results hdp
        have hzlen : (List.zipWith (fun a e => a ++ e) audit
            (results.map fun t => t.2.2)).length = audit.length := by
          simp [List.length_zipWith, hrl, hlen]
        obtain ⟨ihlen, ihbound⟩ := ih (results.map fun t => t.1)
          (List.zipWith (fun a e => a ++ e) audit (results.map fun t => t.2.2)) r2
          (by simp [hzlen, hrl, hlen]) hrec
        constructor
        · show r2.2.2.length = audit.length
          rw [ihlen, hzlen]
        · intro i h3 ha
          show (r2.2.2.get ⟨i, h3⟩).length ≤
            (audit.get ⟨i, ha⟩).length + ((dimension, rules) :: dims).length
          have hiz : i < (List.zipWith (fun a e => a ++ e) audit
              (results.map fun t => t.2.2)).length := by
            rw [hzlen]; exact ha
          have hb := ihbound i h3 hiz
          have hir : i < results.length := by rw [hrl, ← hlen]; exact ha
          have him : i < (results.map fun t => t.2.2).length := by
            simp [hir]
          have hzget : (List.zipWith (fun a e => a ++ e) audit
                (results.map fun t => t.2.2)).get ⟨i, hiz⟩ =
              audit.get ⟨i, ha⟩ ++ (results.map fun t => t.2.2).get ⟨i, him⟩ :=
            List.get_zipWith
          have hmget : (results.map fun t => t.2.2).get ⟨i, him⟩ =
              (results.get ⟨i, hir⟩).2.2 := by
            simp [List.get_map]
          have hone : (results.get ⟨i, hir⟩).2.2.length ≤ 1 :=
            hentry _ (List.get_mem results _ _)
          rw [hzget, hmget] at hb
          simp only [List.length_append] at hb
          simp only [List.length_cons]
          omega

/-- Claim C7: per feature, the audit trail gains at most one entry per
dimension evaluated — so its length never exceeds the number of
dimensions in the pack — and an entry exists for a dimension exactly when
one of its conditional rules matched: the entry records that rule's
condition text and assigned label, and default-rule assignments record
nothing. -/
theorem audit_one_entry_per_matched_dimension :
    (∀ (gdf : List Row) (pack : RulePack) (out : EvalOutput),
        evaluate gdf pack = Except.ok out →
        ∀ a ∈ out.ruleAudit, a.length ≤ pack.logic.length) ∧
    (∀ (dimension : String) (rules : List Rule) (params row : Row)
        (res : Option String × List String),
        evalRowDim dimension rules params row = Except.ok res →
        (res.2 = [] ∧ ∀ t e l, Rule.cond t e l ∈ rules →
            evalCondition e row params = Except.ok false) ∨
        (∃ t e l, Rule.cond t e l ∈ rules ∧ evalCondition e row params = Except.ok true ∧
            res.1 = some l ∧ res.2 = [dimension ++ ":" ++ t ++ "=>" ++ l])) := by
  constructor
  · intro gdf pack out hok a ha
    rw [evaluate] at hok
    cases hev : evalLogic pack.parameters pack.logic gdf (gdf.map fun _ => []) with
    | error msg =>
      simp only [hev, Bind.bind, Except.bind] at hok
      exact Except.noConfusion hok
    | ok r =>
      simp only [hev, Bind.bind, Except.bind] at hok
      have hout := Except.ok.inj hok
      have haudit : out.ruleAudit = r.2.2 := by rw [← hout]
      obtain ⟨hlen, hbound⟩ := evalLogic_audit_bound pack.parameters pack.logic gdf
        (gdf.map fun _ => []) r (by simp) hev
      rw [haudit] at ha
      obtain ⟨i, hget⟩ := List.mem_iff_get.mp ha
      have hia : (i : Nat) < (gdf.map fun _ => ([] : List String)).length := by
        rw [← hlen]; exact i.isLt
      have hb := hbound i i.isLt hia
      rw [hget] at hb
      have hnil : (gdf.map fun _ => ([] : List String)).get ⟨i, hia⟩ = [] := by
        simp [List.get_map]
      rw [hnil] at hb
      simpa using hb
  · intro dimension rules params row res h
    exact evalRules_char dimension row params rules none res h

/-- Witness for C7: the audit entry list of the demo feature has one
entry, within the two dimensions of the demo pack. -/
theorem audit_one_entry_per_matched_dimension_witness :
    (["biodiversity:True=>High"] : List String).length ≤ packTwoDim.logic.length :=
  audit_one_entry_per_matched_dimension.1 rowsDemo packTwoDim outDemo (by rfl)
    ["biodiversity:True=>High"] (by simp [outDemo])

theorem evalRules_result_mem (dimension : String) (row params : Row) :
    ∀ (rules : List Rule) (a0 : Option String) (res : Option String × List String),
      evalRules dimension row params rules a0 = Except.ok res →
      res.1 = a0 ∨ ∃ r ∈ rules, res.1 = some (labelOf r) := by
  intro rules
  induction rules with
  | nil =>
    intro a0 res h
    rw [evalRules] at h
    have hres := Except.ok.inj h
    left
    rw [← hres]
  | cons r rest ih =>
    intro a0 res h
    cases r with
    | dflt label =>
      rw [show evalRules dimension row params (Rule.dflt label :: rest) a0 =
            evalRules dimension row params rest (pyOr a0 label) from rfl] at h
      rcases ih (pyOr a0 label) res h with h1 | ⟨r, hm, h1⟩
      · cases a0 with
        | none =>
          right
          exact ⟨Rule.dflt label, List.mem_cons_self _ _, h1⟩
        | some s =>
          by_cases hs : s = ""
          · right
            refine ⟨Rule.dflt label, List.mem_cons_self _ _, ?_⟩
            rw [h1]
            simp [pyOr, hs, labelOf]
          · left
            rw [h1]
            simp [pyOr, hs]
      · right
        exact ⟨r, List.mem_cons_of_mem _ hm, h1⟩
    | cond t e l =>
      cases hc : evalCondition e row params with
      | error msg =>
        simp only [evalRules, hc] at h
        exact Except.noConfusion h
      | ok b =>
        cases b with
        | true =>
          simp only [evalRules, hc] at h
          have hres := Except.ok.inj h
          right
          refine ⟨Rule.cond t e l, List.mem_cons_self _ _, ?_⟩
          rw [← hres]
          rfl
        | false =>
          simp only [evalRules, hc] at h
          rcases ih a0 res h with h1 | ⟨r, hm, h1⟩
          · left; exact h1
          · right; exact ⟨r, List.mem_cons_of_mem _ hm, h1⟩

theorem evalRowDim_opt4 (dimension : String) (rules : List Rule) (params row : Row)
    (res : Option String × List String)
    (hlab : ∀ r ∈ rules, LMH (labelOf r))
    (h : evalRowDim dimension rules params row = Except.ok res) :
    opt4 res.1 := by
  rcases evalRules_result_mem dimension row params rules none res h with h1 | ⟨r, hm, h1⟩
  · left; exact h1
  · rcases hlab r hm with hL | hM | hH
    · right; left; rw [h1, hL]
    · right; right; left; rw [h1, hM]
    · right; right; right; rw [h1, hH]

theorem worst_catValue (a b : Option String) (ha : opt4 a) (hb : opt4 b) :
    worst (catValue a) (catValue b) = catValue (specWorstOf [a, b]) := by
  rcases ha with rfl | rfl | rfl | rfl <;> rcases hb with rfl | rfl | rfl | rfl <;> rfl

theorem rowGet_setKey (r : Row) (k : String) (v : Value) :
    rowGet (setKey r k v) k = v := by
  unfold rowGet
  rw [lookupKey_setKey]
  simp

theorem rowGet_setKey_ne (r : Row) (k m : String) (v : Value) (h : m ≠ k) :
    rowGet (setKey r k v) m = rowGet r m := by
  unfold rowGet
  rw [lookupKey_setKey]
  simp [h]

theorem dimPass_get (dimension : String) (rules : List Rule) (params : Row) :
    ∀ (rows : List Row) (results : List (Row × Option String × List String)),
      dimPass dimension rules params rows = Except.ok results →
      ∀ i (h1 : i < results.length) (h2 : i < rows.length),
        evalRowDim dimension rules params
            (setKey (rows.get ⟨i, h2⟩) (resultCol dimension) Value.vnone) =
          Except.ok ((results.get ⟨i, h1⟩).2.1, (results.get ⟨i, h1⟩).2.2) ∧
        (results.get ⟨i, h1⟩).1 =
          setKey (setKey (rows.get ⟨i, h2⟩) (resultCol dimension) Value.vnone)
            (resultCol dimension) (catValue ((results.get ⟨i, h1⟩).2.1)) := by
  intro rows
  induction rows with
  | nil =>
    intro results h i h1 h2
    exact absurd h2 (Nat.not_lt_zero i)
  | cons row rest ih =>
    intro results h i h1 h2
    rw [dimPass] at h
    cases hr : evalRowDim dimension rules params (setKey row (resultCol dimension) Value.vnone) with
    | error msg =>
      simp only [hr, Bind.bind, Except.bind] at h
      exact Except.noConfusion h
    | ok r =>
      simp only [hr, Bind.bind, Except.bind] at h
      cases ht : dimPass dimension rules params rest with
      | error msg =>
        simp only [ht] at h
        exact Except.noConfusion h
      | ok tail =>
        simp only [ht] at h
        have hres := Except.ok.inj h
        subst hres
        cases i with
        | zero =>
          constructor
          · show evalRowDim dimension rules params
                (setKey row (resultCol dimension) Value.vnone) = Except.ok (r.1, r.2)
            rw [hr]
          · rfl
        | succ j =>
          have hj1 : j < tail.length := Nat.lt_of_succ_lt_succ h1
          have hj2 : j < rest.length := Nat.lt_of_succ_lt_succ h2
          exact ih tail ht j hj1 hj2

/-- Counterexample to C4 as stated: a pack whose single dimension is
soil computes soil = High for the feature, so the claimed maximum across
all computed dimension categories is High, but overall_risk only consults
the biodiversity and water columns and yields None (Unassigned). -/
theorem overall_risk_ignores_unlisted_dimension :
    evaluate rowsOne packSoil =
      Except.ok ⟨[soilRow], [("soil", [some "High"])], 1, "p", [[]]⟩ ∧
    overallRisk soilRow = Value.vnone ∧
    specWorstOf [some "High"] = some "High" ∧
    Value.vnone ≠ catValue (some "High") :=
  ⟨rfl, rfl, rfl, by decide⟩

/-- Claim C4 (amended): overall_risk takes the worst of exactly the
biodiversity and water categories — with the stated worst-of examples —
so for packs whose dimensions are exactly biodiversity and water (labels
drawn from the schema), it equals the maximum by the fixed order
Unassigned < Low < Medium < High across all computed dimension
categories; a dimension with any other name is ignored by the code. -/
theorem overall_risk_eq_spec_max (gdf : List Row) (rb rw : List Rule) (params : Row)
    (version : Int) (nm desc : String) (out : EvalOutput)
    (hlab : ∀ r, r ∈ rb ++ rw → LMH (labelOf r))
    (hok : evaluate gdf ⟨version, nm, desc, params,
        [("biodiversity", rb), ("water", rw)]⟩ = Except.ok out) :
    worst (Value.vstr "High") (Value.vstr "Low") = Value.vstr "High" ∧
    worst (Value.vstr "Medium") Value.vnone = Value.vstr "Medium" ∧
    worst Value.vnone Value.vnone = Value.vnone ∧
    ∀ i (h1 : i < out.rows.length),
      overallRisk (out.rows.get ⟨i, h1⟩) =
        catValue (specWorstOf (out.categories.map (fun dc => dc.2.getD i none))) := by
  refine ⟨rfl, rfl, rfl, ?_⟩
  rw [evaluate] at hok
  cases hdp1 : dimPass "biodiversity" rb params gdf with
  | error msg =>
    simp only [evalLogic, hdp1, Bind.bind, Except.bind] at hok
    exact Except.noConfusion hok
  | ok results1 =>
    simp only [evalLogic, hdp1, Bind.bind, Except.bind] at hok
    cases hdp2 : dimPass "water" rw params (results1.map fun t => t.1) with
    | error msg =>
      simp only [hdp2] at hok
      exact Except.noConfusion hok
    | ok results2 =>
      simp only [hdp2] at hok
      have hres := Except.ok.inj hok
      subst hres
      intro i h1
      have hi2 : i < results2.length := by
        simpa using h1
      obtain ⟨hr1l, -⟩ := dimPass_ok_facts "biodiversity" rb params gdf results1 hdp1
      obtain ⟨hr2l, -⟩ := dimPass_ok_facts "water" rw params (results1.map fun t => t.1)
        results2 hdp2
      have hi1 : i < results1.length := by
        rw [hr2l] at hi2
        simpa using hi2
      have hig : i < gdf.length := by
        rw [hr1l] at hi1
        exact hi1
      have hi1m : i < (results1.map fun t => t.1).length := by
        simpa using hi1
      obtain ⟨hev1, hrow1⟩ := dimPass_get "biodiversity" rb params gdf results1 hdp1 i hi1 hig
      obtain ⟨hev2, hrow2⟩ := dimPass_get "water" rw params (results1.map fun t => t.1)
        results2 hdp2 i hi2 hi1m
      have ha1 : opt4 ((results1.get ⟨i, hi1⟩).2.1) :=
        evalRowDim_opt4 "biodiversity" rb params _ _
          (fun r hr => hlab r (List.mem_append_left _ hr)) hev1
      have ha2 : opt4 ((results2.get ⟨i, hi2⟩).2.1) :=
        evalRowDim_opt4 "water" rw params _ _
          (fun r hr => hlab r (List.mem_append_right _ hr)) hev2
      have hrowsget : (List.map (fun t => t.1) results2).get ⟨i, by simpa using hi2⟩ =
          (results2.get ⟨i, hi2⟩).1 := by
        simp [List.get_map]
      have hr1get : (List.map (fun t => t.1) results1).get ⟨i, hi1m⟩ =
          (results1.get ⟨i, hi1⟩).1 := by
        simp [List.get_map]
      have hfinal : (results2.get ⟨i, hi2⟩).1 =
          setKey (setKey ((results1.get ⟨i, hi1⟩).1) (resultCol "water") Value.vnone)
            (resultCol "water") (catValue ((results2.get ⟨i, hi2⟩).2.1)) := by
        rw [hrow2, hr1get]
      have hlhs : overallRisk ((List.map (fun t => t.1) results2).get ⟨i, by simpa using hi2⟩) =
          worst (catValue ((results1.get ⟨i, hi1⟩).2.1))
            (catValue ((results2.get ⟨i, hi2⟩).2.1)) := by
        rw [hrowsget, hfinal]
        unfold overallRisk
        have hb : rowGet (setKey (setKey ((results1.get ⟨i, hi1⟩).1) (resultCol "water")
              Value.vnone) (resultCol "water") (catValue ((results2.get ⟨i, hi2⟩).2.1)))
            "biodiversity_category" = catValue ((results1.get ⟨i, hi1⟩).2.1) := by
          rw [rowGet_setKey_ne _ _ _ _ (by decide), rowGet_setKey_ne _ _ _ _ (by decide)]
          rw [hrow1]
          exact rowGet_setKey _ _ _
        have hw : rowGet (setKey (setKey ((results1.get ⟨i, hi1⟩).1) (resultCol "water")
              Value.vnone) (resultCol "water") (catValue ((results2.get ⟨i, hi2⟩).2.1)))
            "water_category" = catValue ((results2.get ⟨i, hi2⟩).2.1) :=
          rowGet_setKey _ _ _
        rw [hb, hw]
      have hcats1 : (List.map (fun t => t.2.1) results1).getD i none =
          (results1.get ⟨i, hi1⟩).2.1 := by
        rw [List.getD_eq_get _ _ (by simpa using hi1)]
        simp [List.get_map]
      have hcats2 : (List.map (fun t => t.2.1) results2).getD i none =
          (results2.get ⟨i, hi2⟩).2.1 := by
        rw [List.getD_eq_get _ _ (by simpa using hi2)]
        simp [List.get_map]
      calc overallRisk ((List.map (fun t => t.1) results2).get ⟨i, h1⟩)
          = worst (catValue ((results1.get ⟨i, hi1⟩).2.1))
              (catValue ((results2.get ⟨i, hi2⟩).2.1)) := hlhs
        _ = catValue (specWorstOf [(results1.get ⟨i, hi1⟩).2.1,
              (results2.get ⟨i, hi2⟩).2.1]) := worst_catValue _ _ ha1 ha2
        _ = catValue (specWorstOf
              ([("biodiversity", List.map (fun t => t.2.1) results1),
                ("water", List.map (fun t => t.2.1) results2)].map
                  (fun dc => dc.2.getD i none))) := by
            simp only [List.map_cons, List.map_nil]
            rw [hcats1, hcats2]

/-- Witness for C4 (amended): on the demo pack (dimensions biodiversity
= High and water = Low) the overall risk of the feature equals the
spec maximum High across both computed categories. -/
theorem overall_risk_eq_spec_max_witness :
    overallRisk (outDemo.rows.get ⟨0, by decide⟩) =
      catValue (specWorstOf (outDemo.categories.map (fun dc => dc.2.getD 0 none))) :=
  (overall_risk_eq_spec_max rowsDemo
      [Rule.cond "True" exprTrue "High", Rule.dflt "Low"] [Rule.dflt "Low"] []
      1 "demo" "" outDemo
      (by
        intro r hr
        simp [List.mem_append, List.mem_cons] at hr
        rcases hr with rfl | rfl | rfl <;> simp [labelOf, LMH])
      (by rfl)).2.2.2 0 (by decide)

theorem sjoinLeft_length {α β : Type} (pred : α → β → Bool) :
    ∀ (left : List α) (right : List β),
      (sjoinLeft pred left right).length =
        (left.map (fun a => max 1 ((right.filter (fun b => pred a b)).length))).sum := by
  intro left right
  induction left with
  | nil => rfl
  | cons a rest ih =>
    simp only [sjoinLeft, List.flatMap_cons, List.length_append, List.map_cons, List.sum_cons]
    simp only [sjoinLeft] at ih
    rw [ih]
    cases hf : right.filter (fun b => pred a b) with
    | nil => simp
    | cons b bs =>
      simp only [List.length_map, List.length_cons]
      omega

theorem length_le_sum_of_one_le {α : Type} (f : α → Nat) :
    ∀ (l : List α), (∀ a ∈ l, 1 ≤ f a) → l.length ≤ (l.map f).sum := by
  intro l
  induction l with
  | nil => intro _; simp
  | cons a rest ih =>
    intro h
    simp only [List.length_cons, List.map_cons, List.sum_cons]
    have h1 : 1 ≤ f a := h a (List.mem_cons_self _ _)
    have h2 := ih (fun a ha => h a (List.mem_cons_of_mem _ ha))
    omega

/-- Counterexample to C1 as stated: in left mode, a point matched by two
reference polygons yields two output rows (one per match, each carrying
that match's attributes), not one row with only the first match — so the
output row count (2) differs from the input row count (1). -/
theorem left_join_duplicates_matches :
    intersect_with_natura predAll [0] [10, 20] cfgLeft = [(0, some 10), (0, some 20)] ∧
    (intersect_with_natura predAll [0] [10, 20] cfgLeft).length ≠ 1 := by
  constructor
  · rfl
  · decide

/-- Claim C1 (amended): a left-mode intersect join keeps every input
point, producing one output row per matching polygon (all matches are
attached, each on its own row) and a single null-match row for a point
with no matches; hence the output row count is the sum over points of
max(1, number of matches) — at least the input row count, and equal to it
exactly when no point has more than one match. -/
theorem left_join_row_per_match {α β : Type} (pred : α → β → Bool)
    (assets : List α) (natura : List β) (cfg : SpatialJoinConfig)
    (h : cfg.join_how = "left") :
    intersect_with_natura pred assets natura cfg = sjoinLeft pred assets natura ∧
    (intersect_with_natura pred assets natura cfg).length =
      (assets.map (fun a => max 1 ((natura.filter (fun b => pred a b)).length))).sum ∧
    assets.length ≤ (intersect_with_natura pred assets natura cfg).length := by
  have he : intersect_with_natura pred assets natura cfg = sjoinLeft pred assets natura := by
    rw [intersect_with_natura, h]
    simp
  refine ⟨he, ?_, ?_⟩
  · rw [he]
    exact sjoinLeft_length pred assets natura
  · rw [he, sjoinLeft_length pred assets natura]
    exact length_le_sum_of_one_le _ assets (fun a _ => Nat.le_max_left 1 _)

/-- Witness for C1 (amended): the concrete double-match example satisfies
the row-per-match cardinality. -/
theorem left_join_row_per_match_witness :
    intersect_with_natura predAll [0] [10, 20] cfgLeft = sjoinLeft predAll [0] [10, 20] ∧
    (intersect_with_natura predAll [0] [10, 20] cfgLeft).length =
      (([0] : List Nat).map
        (fun a => max 1 (([10, 20].filter (fun b => predAll a b)).length))).sum ∧
    ([0] : List Nat).length ≤ (intersect_with_natura predAll [0] [10, 20] cfgLeft).length :=
  left_join_row_per_match predAll [0] [10, 20] cfgLeft rfl

theorem nearestAux_spec (q : Pt) :
    ∀ (w : List Pt), w ≠ [] →
      ∃ i d, nearestAux q w = some (i, d) ∧ i < w.length ∧
        dist2 q (w.getD i ⟨0, 0⟩) = d ∧
        listMin (w.map (fun p => dist2 q p)) = some d ∧
        (w.map (fun p => dist2 q p)).findIdx (fun x => x == d) = i := by
  intro w
  induction w with
  | nil => intro h; exact absurd rfl h
  | cons p rest ih =>
    intro _
    by_cases hrest : rest = []
    · subst hrest
      refine ⟨0, dist2 q p, rfl, by simp, rfl, rfl, ?_⟩
      simp [List.findIdx_cons]
    · obtain ⟨i, d, hna, hlt, hgd, hlm, hfi⟩ := ih hrest
      by_cases hle : dist2 q p ≤ d
      · refine ⟨0, dist2 q p, ?_, by simp, rfl, ?_, ?_⟩
        · rw [nearestAux, hna]
          simp [hle]
        · rw [List.map_cons, listMin, hlm]
          simp [min_eq_left hle]
        · simp [List.map_cons, List.findIdx_cons]
      · have hlt2 : d < dist2 q p := lt_of_not_le hle
        refine ⟨i + 1, d, ?_, ?_, ?_, ?_, ?_⟩
        · rw [nearestAux, hna]
          simp [hle]
        · simpa using Nat.succ_lt_succ hlt
        · exact hgd
        · rw [List.map_cons, listMin, hlm]
          simp [min_eq_right (le_of_lt hlt2)]
        · have hne : (dist2 q p == d) = false :=
            beq_eq_false_iff_ne.mpr (ne_of_gt hlt2)
          rw [List.map_cons, List.findIdx_cons, hne, hfi]
          rfl

theorem nearestRecord_eq (w : List Pt) (h : w ≠ []) (g : Pt) :
    nearestRecord w g = (g, exhaustiveNearest g w) := by
  obtain ⟨i, d, hna, _, hgd, hlm, hfi⟩ := nearestAux_spec g w h
  unfold nearestRecord exhaustiveNearest
  rw [hna, hlm]
  show (g, some (dist2 g (w.getD i ⟨0, 0⟩), i)) =
    (g, some (d, (w.map (fun p => dist2 g p)).findIdx (fun x => x == d)))
  rw [hgd, hfi]

/-- Claim C6: for a non-empty reference layer, the indexed nearest-water
computation returns for every point exactly the distance and reference
index of the exhaustive pairwise-minimum computation (ties resolved to
the first reference feature). Distances are modelled squared, which
preserves minima, argminima and the returned comparisons. -/
theorem distance_refines_exhaustive (assets w : List Pt) (h : w ≠ []) :
    distance_to_nearest_water assets w =
      assets.map (fun g => (g, exhaustiveNearest g w)) := by
  unfold distance_to_nearest_water
  induction assets with
  | nil => rfl
  | cons g rest ih =>
    rw [List.map_cons, List.map_cons, ih, nearestRecord_eq w h g]

/-- Witness for C6: one query point against three reference points; the
indexed result equals the exhaustive minimum (distance 1 at index 0). -/
theorem distance_refines_exhaustive_witness :
    distance_to_nearest_water [⟨0, 0⟩] [⟨1, 0⟩, ⟨0, 1⟩, ⟨2, 2⟩] =
      ([⟨0, 0⟩] : List Pt).map
        (fun g => (g, exhaustiveNearest g [⟨1, 0⟩, ⟨0, 1⟩, ⟨2, 2⟩])) :=
  distance_refines_exhaustive [⟨0, 0⟩] [⟨1, 0⟩, ⟨0, 1⟩, ⟨2, 2⟩] (by decide)

theorem ensure_crs_3857_eq (g : GDF) : ensure_crs_3857 g = ⟨some "EPSG:3857"⟩ := rfl

/-- Claim C8 (amended): every spatial operation that does buffer or
distance math (intersect_with_natura, overlay_corine,
distance_to_nearest_water) performs each geometry computation on frames
in the metric CRS EPSG:3857, and returns its result reprojected to WGS84
(EPSG:4326) — which coincides with the feature's original geographic CRS
exactly when that CRS was WGS84 or undefined. -/
theorem spatial_ops_metric_math_wgs84_out (a b : GDF) (cfg : SpatialJoinConfig) :
    ((intersect_with_natura_crs a b cfg).1.crs = some WGS84 ∧
      ∀ c ∈ (intersect_with_natura_crs a b cfg).2, c = some "EPSG:3857") ∧
    ((overlay_corine_crs a b).1.crs = some WGS84 ∧
      ∀ c ∈ (overlay_corine_crs a b).2, c = some "EPSG:3857") ∧
    ((distance_to_nearest_water_crs a b).1.crs = some WGS84 ∧
      ∀ c ∈ (distance_to_nearest_water_crs a b).2, c = some "EPSG:3857") := by
  refine ⟨⟨rfl, ?_⟩, ⟨rfl, ?_⟩, ⟨rfl, ?_⟩⟩
  · intro c hc
    simp only [intersect_with_natura_crs, ensure_crs_3857_eq] at hc
    rcases List.mem_append.mp hc with h1 | h1
    · split at h1
      · simpa using h1
      · simp at h1
    · simp at h1
      rcases h1 with rfl | rfl <;> rfl
  · intro c hc
    simp only [overlay_corine_crs, ensure_crs_3857_eq] at hc
    simp at hc
    rcases hc with rfl | rfl <;> rfl
  · intro c hc
    simp only [distance_to_nearest_water_crs, ensure_crs_3857_eq] at hc
    simp at hc
    rcases hc with rfl | rfl <;> rfl

/-- Witness for C8 (amended): on concrete frames, the joined output is in
WGS84 and the recorded math CRS of the sjoin operands is EPSG:3857. -/
theorem spatial_ops_metric_math_wgs84_out_witness :
    (intersect_with_natura_crs ⟨some "EPSG:4326"⟩ ⟨none⟩ cfgLeft).1.crs = some WGS84 ∧
    (some "EPSG:3857" : Option String) = some "EPSG:3857" := by
  have h := spatial_ops_metric_math_wgs84_out ⟨some "EPSG:4326"⟩ ⟨none⟩ cfgLeft
  exact ⟨h.1.1, h.1.2 (some "EPSG:3857") (by decide)⟩

/-- Counterexample to C8 as stated: a portfolio tagged with the
geographic CRS EPSG:4258 comes back tagged EPSG:4326, not its original
CRS. -/
theorem output_crs_not_original :
    (intersect_with_natura_crs ⟨some "EPSG:4258"⟩ ⟨some "EPSG:4258"⟩ cfgLeft).1.crs =
      some "EPSG:4326" ∧
    (GDF.mk (some "EPSG:4258")).crs ≠ some "EPSG:4326" :=
  ⟨rfl, by decide⟩

/-- Claim C9: the near-water flag is true exactly when the row's distance
is less than or equal to the threshold; at distance equal to the
threshold the flag is true (boundary inclusive). -/
theorem near_water_flag_inclusive (dists : List ℚ) (t : ℚ) :
    (flag_within_water_threshold dists t).length = dists.length ∧
    (∀ i (h1 : i < (flag_within_water_threshold dists t).length) (h2 : i < dists.length),
      ((flag_within_water_threshold dists t).get ⟨i, h1⟩ = true ↔
        dists.get ⟨i, h2⟩ ≤ t)) ∧
    flag_within_water_threshold [t] t = [true] := by
  refine ⟨by simp [flag_within_water_threshold], ?_, by simp [flag_within_water_threshold]⟩
  intro i h1 h2
  simp [flag_within_water_threshold, List.get_map]

/-- Witness for C9: at distance equal to the threshold the flag is true. -/
theorem near_water_flag_inclusive_witness :
    flag_within_water_threshold [(1000 : ℚ)] 1000 = [true] :=
  (near_water_flag_inclusive [1000] 1000).2.2

end IncapMV
